import Mathlib

/-!
Verification of the `Children` component of `bevy_hierarchy`
(`src/crates/bevy_hierarchy/src/components/children.rs`).

The component stores one mandatory ordered sequence `all` of entity
handles and one optional ordered sequence `active`.  `SmallVec<[Entity; 8]>`
is modelled as `List Entity` (the inline-storage optimization is a
performance detail with no observable effect on contents or order).
Fallible operations (the bounds-checked two-index `swap`) return `Option`.
-/

/-- An entity handle: an opaque index + generation pair.  The container never
dereferences it, so any type with decidable equality is a faithful model. -/
structure Entity where
  index : Nat
  generation : Nat
deriving DecidableEq, Repr

/-- The `Children` component: `all: SmallVec<[Entity; 8]>` and
`active: Option<SmallVec<[Entity; 8]>>`. -/
structure Children where
  all : List Entity
  active : Option (List Entity)
deriving DecidableEq, Repr

namespace Children

/-- Rust `Children::from_entities`: `all` is a copy of the given slice, `active`
starts absent. -/
def from_entities (entities : List Entity) : Children :=
  { all := entities, active := none }

/-- Rust `FromWorld for Children`: the empty placeholder container. -/
def from_world : Children :=
  { all := [], active := none }

/-- Rust `slice::swap` on the `all` list: bounds-check both indices (Rust panics
out of range, modelled as `none`), then exchange the two positions. -/
def swapAll (l : List Entity) (i j : Nat) : Option (List Entity) :=
  if h : i < l.length ∧ j < l.length then
    some ((l.set i (l.get ⟨j, h.2⟩)).set j (l.get ⟨i, h.1⟩))
  else
    none

/-- Rust `Children::swap`: swaps the children at the two indices in `all`
(panicking — `none` — when an index is out of bounds) and sets
`active = None`. -/
def swap (c : Children) (a_index b_index : Nat) : Option Children :=
  (swapAll c.all a_index b_index).map fun l => { all := l, active := none }

/-- Rust `Children::set_zero_active`: ensures `active` is present (creating an
empty list when absent) and clears it; the net state is `active = Some([])`. -/
def set_zero_active (c : Children) : Children :=
  { c with active := some [] }

/-- Rust `Children::is_zero_active`:
`self.active.as_ref().map(|a| a.is_empty()).unwrap_or_default()`
(`bool::default()` is `false`). -/
def is_zero_active (c : Children) : Bool :=
  (c.active.map List.isEmpty).getD false

/-- Rust `Children::add_active`: pushes onto `active` when present, otherwise
creates `active` holding just the given entity. -/
def add_active (c : Children) (entity : Entity) : Children :=
  match c.active with
  | some active => { c with active := some (active ++ [entity]) }
  | none => { c with active := some [entity] }

/-- Rust `Children::swap_active`: ensures `active` is present (empty when it was
absent), then `mem::swap`s it with the caller's buffer.  Returns the new
container together with the buffer's new contents. -/
def swap_active (c : Children) (other : List Entity) : Children × List Entity :=
  ({ c with active := some other }, c.active.getD [])

/-- Rust `Children::set_active`: ensures `active` is present, clears it, and
extends it with the iterator's elements; the net state is
`active = Some(iter)`. -/
def set_active (c : Children) (iter : List Entity) : Children :=
  { c with active := some iter }

/-- Rust `Children::sort_by`: sorts `all` with the comparator, and — when present —
sorts `active` with the same comparator.  `slice::sort_by` is a stable
comparison sort, modelled by `List.insertionSort` (also stable). -/
def sort_by (r : Entity → Entity → Prop) [DecidableRel r] (c : Children) : Children :=
  { all := c.all.insertionSort r,
    active := c.active.map (List.insertionSort r) }

/-- Rust `Children::sort_by_key`: `slice::sort_by_key(k)` sorts by comparing
extracted keys, i.e. by the relation `k a ≤ k b`, on `all` and (when
present) on `active`. -/
def sort_by_key {K : Type} [LinearOrder K] (k : Entity → K) (c : Children) : Children :=
  sort_by (fun a b => k a ≤ k b) c

/-- Rust `Children::sort_by_cached_key`: same sorted result as `sort_by_key`
(key caching is a performance detail). -/
def sort_by_cached_key {K : Type} [LinearOrder K] (k : Entity → K) (c : Children) : Children :=
  sort_by_key k c

/-- Rust `Children::sort_unstable_by`: applies an unstable comparison sort to
`all` and (when present) to `active`.  The unstable sort's contract fixes
only sortedness and permutation, both shared with the stable sort, so the
same comparison sort models it. -/
def sort_unstable_by (r : Entity → Entity → Prop) [DecidableRel r] (c : Children) : Children :=
  { all := c.all.insertionSort r,
    active := c.active.map (List.insertionSort r) }

/-- Rust `Children::sort_unstable_by_key`: key-based unstable sort on `all` and
(when present) on `active`. -/
def sort_unstable_by_key {K : Type} [LinearOrder K] (k : Entity → K) (c : Children) : Children :=
  sort_unstable_by (fun a b => k a ≤ k b) c

/-- Rust `VisitEntitiesMut for Children`: applies `f` to every element of
`active` when `active` is present, otherwise to every element of `all`. -/
def visit_entities_mut (f : Entity → Entity) (c : Children) : Children :=
  match c.active with
  | some active => { c with active := some (active.map f) }
  | none => { c with all := c.all.map f }

/-- Rust `Deref for Children`: the `active` view when present, else `all`. -/
def deref (c : Children) : List Entity :=
  match c.active with
  | some active => active
  | none => c.all

/-- Rust `IntoIterator for &Children`: iterates `active` when present, else
`all` (same view as `deref`). -/
def into_iter (c : Children) : List Entity :=
  match c.active with
  | some active => active
  | none => c.all

/-- Modelled from the spec: `iter_active()` "produces a lazy sequence over
`active` if present, else over `all`" (§4.3); the accessor itself is not in
`src/components/children.rs`, only its contract is. -/
def iter_active (c : Children) : List Entity :=
  match c.active with
  | some active => active
  | none => c.all

end Children

/-- One call of the container's public mutating API, for reasoning about
reachable states.  `swapAct`/`setAct` record the concrete sequence handed
to `swap_active`/`set_active`; `sortOp` records the comparator as a Boolean
relation; `visitOp` records the remap function. -/
inductive Op where
  | swapIdx : Nat → Nat → Op
  | setZero : Op
  | addAct : Entity → Op
  | swapAct : List Entity → Op
  | setAct : List Entity → Op
  | sortOp : (Entity → Entity → Bool) → Op
  | visitOp : (Entity → Entity) → Op

/-- Executes one operation on a container; `none` models the panic of an
out-of-bounds `swap`. -/
def step (c : Children) : Op → Option Children
  | .swapIdx i j => c.swap i j
  | .setZero => some c.set_zero_active
  | .addAct e => some (c.add_active e)
  | .swapAct b => some (c.swap_active b).1
  | .setAct l => some (c.set_active l)
  | .sortOp r => some (Children.sort_by (fun a b => r a b = true) c)
  | .visitOp f => some (Children.visit_entities_mut f c)

/-- Executes a sequence of operations left to right, stopping at a panic. -/
def run (c : Children) : List Op → Option Children
  | [] => some c
  | o :: rest =>
    match step c o with
    | some c1 => run c1 rest
    | none => none

/-- What a single operation forces `is_zero_active` to afterwards:
`some b` when the operation always leaves `is_zero_active = b` (for
`swap_active`/`set_active`, `b` says whether the installed sequence is
empty), `none` when the operation preserves `is_zero_active` (sorting and
entity-visiting never change whether `active` is present and empty). -/
def classify : Op → Option Bool
  | .swapIdx _ _ => some false
  | .setZero => some true
  | .addAct _ => some false
  | .swapAct b => some b.isEmpty
  | .setAct l => some l.isEmpty
  | .sortOp _ => none
  | .visitOp _ => none

/-- The value `is_zero_active` is forced to by the latest
emptiness-determining operation of a trace, if any. -/
def zeroAfter : List Op → Option Bool
  | [] => none
  | o :: rest =>
    match zeroAfter rest with
    | some b => some b
    | none => classify o

/-- Tests whether an operation is `set_zero_active`. -/
def isSetZero : Op → Bool
  | .setZero => true
  | _ => false

/-- Index order on entity handles, a concrete total preorder used to
instantiate sorting theorems. -/
def rIdx (a b : Entity) : Prop :=
  a.index ≤ b.index

instance : DecidableRel rIdx := fun a b => Nat.decLe a.index b.index

instance : IsTotal Entity rIdx := ⟨fun a b => Nat.le_total a.index b.index⟩

instance : IsTrans Entity rIdx := ⟨fun _ _ _ h h2 => Nat.le_trans h h2⟩

/-- A concrete entity handle used in witnesses. -/
def eA : Entity := ⟨0, 0⟩

/-- A second concrete entity handle used in witnesses. -/
def eB : Entity := ⟨1, 0⟩

/-- A concrete remap function used in witnesses: bumps the index. -/
def fNudge : Entity → Entity := fun e => ⟨e.index + 1, e.generation⟩

/-- A concrete container with `active` absent, used in witnesses. -/
def cNoActive : Children := ⟨[eB, eA], none⟩

/-- A concrete container with `active` present, used in witnesses. -/
def cWithActive : Children := ⟨[eB, eA], some [eB, eA]⟩

/-- The container `swap 0 1` produces from `from_entities [eA, eB]`. -/
def cSwapped : Children := ⟨[eB, eA], none⟩

/-- The container the witness trace for the reachable-state theorem ends in. -/
def cTrace : Children := ⟨[eA], some [eB]⟩

/-- The container the counterexample trace `set_active([])` ends in. -/
def cZeroTrace : Children := ⟨[eA], some []⟩

/-- C2: `from_entities(S)` leaves `active` absent, and both read views —
`Deref` to a slice and `IntoIterator` — yield exactly `S` in order. -/
theorem from_entities_fidelity (s : List Entity) :
    (Children.from_entities s).active = none ∧
    (Children.from_entities s).deref = s ∧
    (Children.from_entities s).into_iter = s :=
  ⟨rfl, rfl, rfl⟩

/-- C6: `is_zero_active` is true exactly when `active` is present and
empty, hence false when `active` is absent and false when it is present
and non-empty; as a pure function of the container it modifies nothing. -/
theorem is_zero_active_iff (c : Children) :
    c.is_zero_active = true ↔ c.active = some [] := by
  rcases c with ⟨all, _ | a⟩
  · simp [Children.is_zero_active]
  · rcases a with _ | ⟨x, xs⟩ <;> simp [Children.is_zero_active]

/-- C9: after `swap_active(B)`, the container's `active` is present and
holds the pre-call contents of `B`, and the buffer holds the pre-call
contents of `active` (the empty sequence when `active` was absent); the
sequences are exchanged whole. -/
theorem swap_active_exchanges (c : Children) (b : List Entity) :
    (c.swap_active b).1.active = some b ∧
    (c.swap_active b).2 = c.active.getD [] ∧
    (c.active = none → (c.swap_active b).2 = []) :=
  ⟨rfl, rfl, fun h => by simp [Children.swap_active, h]⟩

/-- Witness for the swap-active exchange at a concrete container whose
`active` is absent, discharging the hypothesis of the last conjunct. -/
theorem swap_active_exchanges_witness :
    (cNoActive.swap_active [eA]).1.active = some [eA] ∧
    (cNoActive.swap_active [eA]).2 = cNoActive.active.getD [] ∧
    (cNoActive.swap_active [eA]).2 = [] :=
  ⟨(swap_active_exchanges cNoActive [eA]).1,
   (swap_active_exchanges cNoActive [eA]).2.1,
   (swap_active_exchanges cNoActive [eA]).2.2 rfl⟩

/-- C10: none of the four active-subset operations —
`set_zero_active`, `add_active`, `swap_active`, `set_active` — changes
`all` in any way, for every container and argument. -/
theorem active_ops_preserve_all (c : Children) (e : Entity) (b l : List Entity) :
    c.set_zero_active.all = c.all ∧
    (c.add_active e).all = c.all ∧
    (c.swap_active b).1.all = c.all ∧
    (c.set_active l).all = c.all := by
  refine ⟨rfl, ?_, rfl, rfl⟩
  rcases c with ⟨all, _ | a⟩ <;> rfl

/-- Folding `add_active` over a list appends its elements to `active` in
order and never touches `all`. -/
theorem add_active_foldl (es : List Entity) (c : Children) (pre : List Entity)
    (h : c.active = some pre) :
    (es.foldl Children.add_active c).active = some (pre ++ es) ∧
    (es.foldl Children.add_active c).all = c.all := by
  induction es generalizing c pre with
  | nil => simp [h]
  | cons e rest ih =>
    have hstep : (c.add_active e).active = some (pre ++ [e]) := by
      simp [Children.add_active, h]
    have hall : (c.add_active e).all = c.all := by
      rcases c with ⟨all, _ | a⟩ <;> rfl
    have := ih (c.add_active e) (pre ++ [e]) hstep
    simp [List.foldl_cons, this.1, this.2, hall]

/-- Witness for `add_active_foldl` at a concrete container. -/
theorem add_active_foldl_witness :
    (([eB] : List Entity).foldl Children.add_active cWithActive).active
      = some ([eB, eA] ++ [eB]) ∧
    (([eB] : List Entity).foldl Children.add_active cWithActive).all
      = cWithActive.all :=
  add_active_foldl [eB] cWithActive [eB, eA] rfl

/-- C7: `set_zero_active()` followed by `add_active(e1) ... add_active(ek)`
leaves `active` present and equal to `[e1, ..., ek]`, so iterating the
active view yields exactly those entities in append order. -/
theorem active_round_trip (c : Children) (es : List Entity) :
    (es.foldl Children.add_active c.set_zero_active).active = some es ∧
    (es.foldl Children.add_active c.set_zero_active).iter_active = es := by
  have h := add_active_foldl es c.set_zero_active [] rfl
  refine ⟨by simpa using h.1, ?_⟩
  have h1 : (es.foldl Children.add_active c.set_zero_active).active = some es := by
    simpa using h.1
  simp [Children.iter_active, h1]

/-- C1 counterexample: with `active` present, `visit_entities_mut` does not
rewrite `all`, so iterating `all` does not yield `f` of its pre-remap
contents — refuting "regardless of whether `active` is present". -/
theorem visit_entities_mut_all_counterexample :
    ¬ ((Children.visit_entities_mut fNudge cWithActive).all
        = cWithActive.all.map fNudge) := by
  decide

/-- C1 amended: `visit_entities_mut(f)` rewrites `all` elementwise in order
exactly when `active` is absent; when `active` is present it instead
rewrites `active` elementwise in order and leaves `all` untouched.  Either
way every visited entry is mapped exactly once, in place, in order. -/
theorem visit_entities_mut_spec (f : Entity → Entity) (c : Children) :
    (c.active = none →
      (Children.visit_entities_mut f c).all = c.all.map f ∧
      (Children.visit_entities_mut f c).active = none) ∧
    (∀ a, c.active = some a →
      (Children.visit_entities_mut f c).all = c.all ∧
      (Children.visit_entities_mut f c).active = some (a.map f)) := by
  constructor
  · intro h
    simp [Children.visit_entities_mut, h]
  · intro a h
    simp [Children.visit_entities_mut, h]

/-- C4: the two-index `swap` fails exactly when one of the indices is not a
valid position in `all`; with both indices in range it always succeeds.
Every other operation of the container is a total function by
construction, matching the spec's narrow error taxonomy. -/
theorem swap_oob_iff (c : Children) (i j : Nat) :
    c.swap i j = none ↔ (c.all.length ≤ i ∨ c.all.length ≤ j) := by
  by_cases h : i < c.all.length ∧ j < c.all.length
  · simp [Children.swap, Children.swapAll, h]
  · simp [Children.swap, Children.swapAll, h]
    omega

/-- Swapping the same two positions twice restores the list. -/
theorem swapAll_swapAll (l l1 : List Entity) (i j : Nat)
    (h : Children.swapAll l i j = some l1) :
    Children.swapAll l1 i j = some l := by
  unfold Children.swapAll at h ⊢
  split at h
  case isTrue hb =>
    obtain ⟨hi, hj⟩ := hb
    injection h with h
    subst h
    rw [dif_pos (by simp [hi, hj])]
    congr 1
    apply List.ext_getElem?
    intro k
    simp only [List.get_eq_getElem, List.getElem?_set, List.length_set,
      List.getElem_set, List.getElem?_eq_getElem, hi, hj]
    split_ifs <;> simp_all [List.getElem?_eq_getElem]
  case isFalse hb =>
    simp at h

/-- Witness for `swapAll_swapAll` on a concrete two-element list. -/
theorem swapAll_swapAll_witness :
    Children.swapAll [eB, eA] 0 1 = some [eA, eB] :=
  swapAll_swapAll [eA, eB] [eB, eA] 0 1 (by decide)

/-- C3: when `swap(i, j)` succeeds it leaves `active` absent, and a second
`swap(i, j)` succeeds and restores the original order of `all`. -/
theorem swap_swap_restores (c c1 : Children) (i j : Nat)
    (h : c.swap i j = some c1) :
    c1.active = none ∧ ∃ c2, c1.swap i j = some c2 ∧ c2.all = c.all := by
  unfold Children.swap at h ⊢
  cases hs : Children.swapAll c.all i j with
  | none => rw [hs] at h; simp at h
  | some l1 =>
    rw [hs] at h
    simp at h
    subst h
    refine ⟨rfl, { all := c.all, active := none }, ?_, rfl⟩
    have h2 := swapAll_swapAll c.all l1 i j hs
    simp [h2]

/-- Witness for the double-swap theorem at a concrete two-element
container. -/
theorem swap_swap_restores_witness :
    (Children.from_entities [eA, eB]).swap 0 1 = some cSwapped ∧
    (cSwapped.active = none ∧ ∃ c2, cSwapped.swap 0 1 = some c2 ∧
      c2.all = (Children.from_entities [eA, eB]).all) :=
  ⟨by decide,
   swap_swap_restores (Children.from_entities [eA, eB]) cSwapped 0 1 (by decide)⟩

/-- C5: every sort leaves `all` sorted by the given comparator and a
permutation of its pre-call contents; `active` is present afterwards
exactly when it was before, and when present it is independently sorted by
the same comparator and a permutation of its own pre-call contents.  The
key-based and unstable members of the family satisfy the same contract. -/
theorem dual_sort_spec (r : Entity → Entity → Prop) [DecidableRel r]
    [IsTotal Entity r] [IsTrans Entity r] (c : Children) :
    List.Sorted r (Children.sort_by r c).all ∧
    (Children.sort_by r c).all.Perm c.all ∧
    (c.active = none → (Children.sort_by r c).active = none) ∧
    (∀ a, c.active = some a → ∃ b, (Children.sort_by r c).active = some b ∧
      List.Sorted r b ∧ b.Perm a) ∧
    Children.sort_unstable_by r c = Children.sort_by r c ∧
    (∀ (K : Type) [LinearOrder K] (k : Entity → K),
      List.Sorted (fun a b => k a ≤ k b) (Children.sort_by_key k c).all ∧
      (Children.sort_by_key k c).all.Perm c.all ∧
      (∀ a, c.active = some a →
        ∃ b, (Children.sort_by_key k c).active = some b ∧
          List.Sorted (fun a b => k a ≤ k b) b ∧ b.Perm a) ∧
      Children.sort_by_cached_key k c = Children.sort_by_key k c ∧
      Children.sort_unstable_by_key k c = Children.sort_by_key k c) := by
  refine ⟨List.sorted_insertionSort r c.all, List.perm_insertionSort r c.all,
    ?_, ?_, rfl, ?_⟩
  · intro h
    simp [Children.sort_by, h]
  · intro a h
    exact ⟨a.insertionSort r, by simp [Children.sort_by, h],
      List.sorted_insertionSort r a, List.perm_insertionSort r a⟩
  · intro K instK k
    haveI : IsTotal Entity (fun a b => k a ≤ k b) :=
      ⟨fun a b => le_total (k a) (k b)⟩
    haveI : IsTrans Entity (fun a b => k a ≤ k b) :=
      ⟨fun _ _ _ h h2 => le_trans h h2⟩
    refine ⟨List.sorted_insertionSort _ c.all, List.perm_insertionSort _ c.all,
      ?_, rfl, rfl⟩
    intro a h
    exact ⟨a.insertionSort _, by simp [Children.sort_by_key, Children.sort_by, h],
      List.sorted_insertionSort _ a, List.perm_insertionSort _ a⟩

/-- Witness for the dual-sort contract at the index order and a concrete
container with `active` present. -/
theorem dual_sort_spec_witness :
    List.Sorted rIdx (Children.sort_by rIdx cWithActive).all ∧
    (Children.sort_by rIdx cWithActive).all.Perm cWithActive.all ∧
    (∃ b, (Children.sort_by rIdx cWithActive).active = some b ∧
      List.Sorted rIdx b ∧ b.Perm [eB, eA]) :=
  ⟨(dual_sort_spec rIdx cWithActive).1,
   (dual_sort_spec rIdx cWithActive).2.1,
   (dual_sort_spec rIdx cWithActive).2.2.2.1 [eB, eA] rfl⟩

/-- Witness for the amended visit contract at concrete containers with
`active` absent and with `active` present. -/
theorem visit_entities_mut_spec_witness :
    ((Children.visit_entities_mut fNudge cNoActive).all
        = cNoActive.all.map fNudge ∧
      (Children.visit_entities_mut fNudge cNoActive).active = none) ∧
    ((Children.visit_entities_mut fNudge cWithActive).all = cWithActive.all ∧
      (Children.visit_entities_mut fNudge cWithActive).active
        = some ([eB, eA].map fNudge)) :=
  ⟨(visit_entities_mut_spec fNudge cNoActive).1 rfl,
   (visit_entities_mut_spec fNudge cWithActive).2 [eB, eA] rfl⟩

/-- Sorting preserves emptiness of a list. -/
theorem isEmpty_insertionSort (r : Entity → Entity → Prop) [DecidableRel r]
    (a : List Entity) :
    (a.insertionSort r).isEmpty = a.isEmpty := by
  rcases a with _ | ⟨x, xs⟩
  · rfl
  · have hl := List.length_insertionSort r (x :: xs)
    rcases h : (x :: xs).insertionSort r with _ | ⟨y, ys⟩
    · rw [h] at hl
      simp at hl
    · rfl

/-- Witness for `isEmpty_insertionSort`: the decidability hypothesis is
discharged by the index-order instance. -/
theorem isEmpty_insertionSort_witness :
    (([eB, eA] : List Entity).insertionSort rIdx).isEmpty
      = ([eB, eA] : List Entity).isEmpty :=
  isEmpty_insertionSort rIdx [eB, eA]

/-- After one operation, `is_zero_active` equals the value the operation
forces (`classify`), or is preserved when the operation forces nothing. -/
theorem step_is_zero (c c1 : Children) (o : Op) (h : step c o = some c1) :
    c1.is_zero_active = (classify o).getD c.is_zero_active := by
  cases o with
  | swapIdx i j =>
    simp only [step] at h
    unfold Children.swap at h
    cases hs : Children.swapAll c.all i j with
    | none => rw [hs] at h; simp at h
    | some l1 =>
      rw [hs] at h
      simp at h
      subst h
      rfl
  | setZero =>
    injection h with h
    subst h
    rfl
  | addAct e =>
    injection h with h
    subst h
    rcases c with ⟨all, _ | a⟩
    · rfl
    · show ((a ++ [e]).isEmpty) = _
      rcases a with _ | ⟨x, xs⟩ <;> rfl
  | swapAct b =>
    injection h with h
    subst h
    rfl
  | setAct l =>
    injection h with h
    subst h
    rfl
  | sortOp r =>
    injection h with h
    subst h
    rcases c with ⟨all, _ | a⟩
    · rfl
    · show ((a.insertionSort _).isEmpty) = _
      rw [isEmpty_insertionSort]
      rfl
  | visitOp f =>
    injection h with h
    subst h
    rcases c with ⟨all, _ | a⟩
    · rfl
    · show ((a.map f).isEmpty) = _
      rcases a with _ | ⟨x, xs⟩ <;> rfl

/-- C8 counterexample: the one-operation trace `set_active([])` reaches a
state where `is_zero_active()` is true, although no operation in the trace
is `set_zero_active()` — refuting "no other operation sequence can make
`is_zero_active()` return true". -/
theorem is_zero_active_trace_counterexample :
    run (Children.from_entities [eA]) [Op.setAct []] = some cZeroTrace ∧
    cZeroTrace.is_zero_active = true ∧
    ([Op.setAct []].all fun o => !isSetZero o) = true :=
  ⟨rfl, rfl, rfl⟩

/-- C8 amended: in every reachable state, `is_zero_active()` is true
exactly when the latest emptiness-determining operation of the trace left
`active` present and empty — `set_zero_active()` always does,
`set_active`/`swap_active` do exactly when handed an empty sequence,
`add_active` and `swap` never do, and sorting/visiting are transparent;
with no such operation in the trace the initial value persists. -/
theorem is_zero_active_trace (c0 : Children) (ops : List Op) (c : Children)
    (h : run c0 ops = some c) :
    c.is_zero_active = (zeroAfter ops).getD c0.is_zero_active := by
  induction ops generalizing c0 with
  | nil =>
    simp [run] at h
    subst h
    rfl
  | cons o rest ih =>
    rw [run] at h
    cases hs : step c0 o with
    | none => rw [hs] at h; simp at h
    | some c1 =>
      rw [hs] at h
      have h1 := ih c1 h
      have h2 := step_is_zero c0 c1 o hs
      rw [zeroAfter]
      cases hz : zeroAfter rest with
      | some b =>
        rw [hz] at h1
        simpa using h1
      | none =>
        rw [hz] at h1
        simp only [Option.getD_none] at h1
        rw [h1, h2]

/-- Witness for the reachable-state characterization on the concrete trace
`set_zero_active(); add_active(eB)` from a one-child container. -/
theorem is_zero_active_trace_witness :
    run (Children.from_entities [eA]) [Op.setZero, Op.addAct eB] = some cTrace ∧
    cTrace.is_zero_active
      = (zeroAfter [Op.setZero, Op.addAct eB]).getD
          (Children.from_entities [eA]).is_zero_active :=
  ⟨rfl, is_zero_active_trace (Children.from_entities [eA])
    [Op.setZero, Op.addAct eB] cTrace rfl⟩
